import Mathlib

/-!
# Verification of the ChessProject rules and search engine

Shallow embedding of the repository's core logic (`src/logic/`):
`types.py`, `moves.py`, `pieces.py`, `board.py`, `game.py`, `ai.py`.
Python objects become Lean values; in-place mutation becomes explicit
value transformation; the pieces placed on boards are value-like
(kind, owner, is_moved), exactly the data the source's
`Board.__deepcopy__` preserves when copying a board.
-/

set_option maxRecDepth 10000

/-- Embeds `logic.types.Player` (an enum with two members, `white` and
`black`, in that definition order). -/
inductive Player where
  | white
  | black
deriving DecidableEq, Repr

/-- Embeds `Player.opponent` from `logic/types.py`. -/
def Player.opponent : Player → Player
  | .white => .black
  | .black => .white

/-- `PlayerData.direction` from `logic/types.py`: white moves in -y,
black in +y. -/
def Player.direction : Player → Int
  | .white => -1
  | .black => 1

/-- `PlayerData.promotion_row` from `logic/types.py`. -/
def Player.promotion_row : Player → Int
  | .white => 0
  | .black => 7

/-- `PlayerData.pawn_start_row` from `logic/types.py`. -/
def Player.pawn_start_row : Player → Int
  | .white => 6
  | .black => 1

/-- Embeds `logic.types.EndReason`. -/
inductive EndReason where
  | checkmate
  | stalemate
  | insufficient_material
deriving DecidableEq, Repr

/-- Embeds `logic.types.Result`. -/
structure Result where
  winner : Option Player
  end_reason : EndReason
deriving DecidableEq, Repr

/-- The six concrete subclasses of `logic.pieces.Piece`. -/
inductive PieceKind where
  | pawn
  | knight
  | bishop
  | rook
  | queen
  | king
deriving DecidableEq, Repr

/-- Embeds a `logic.pieces.Piece` instance: its class, its `player`
field and its `is_moved` field (the data `Board.__deepcopy__` copies). -/
structure Piece where
  kind : PieceKind
  player : Player
  is_moved : Bool := false
deriving DecidableEq, Repr

/-- A square, written `(x, y)` as in the source.  Coordinates are
integers because move generation forms `x + dx` / `y + dy` before
bounds-checking with `is_inside`. -/
abbrev Pos := Int × Int

/-- Embeds `logic.board.Board`: `self.field` is a list of 8 rows of 8
optional pieces; `board[x, y]` reads `field[y][x]`. -/
structure Board where
  field : List (List (Option Piece))
deriving DecidableEq, Repr

/-- Embeds `Board.is_inside`. -/
def Board.is_inside (pos : Pos) : Bool :=
  decide (0 ≤ pos.1) && decide (pos.1 < 8) && decide (0 ≤ pos.2) && decide (pos.2 < 8)

/-- Embeds `Board.__getitem__`: `self.field[pos[1]][pos[0]]`.  The
source indexes without a bounds check and every call site guards with
`is_inside` first (or passes a coordinate that is in bounds); reads
outside the grid return `none` here. -/
def Board.get (b : Board) (pos : Pos) : Option Piece :=
  if Board.is_inside pos then
    (b.field.getD pos.2.toNat []).getD pos.1.toNat none
  else none

/-- Embeds `Board.__setitem__`: `self.field[pos[1]][pos[0]] = piece`.
Call sites only ever write in-bounds squares. -/
def Board.set (b : Board) (pos : Pos) (piece : Option Piece) : Board :=
  ⟨b.field.set pos.2.toNat ((b.field.getD pos.2.toNat []).set pos.1.toNat piece)⟩

/-- Embeds `logic.moves.Move` and its two dataclass subclasses
`MoveWithPromotion` and `MoveCastling` (field order as in the source:
piece, start_position, destination, then the subclass fields). -/
inductive Move where
  | plain (piece : Piece) (start_position : Pos) (destination : Pos)
  | promotion (piece : Piece) (start_position : Pos) (destination : Pos) (promoted_to : Piece)
  | castling (piece : Piece) (start_position : Pos) (destination : Pos)
      (rock : Piece) (rook_start : Pos) (rook_destination : Pos)
deriving DecidableEq, Repr

/-- The `destination` field shared by all move kinds. -/
def Move.destination : Move → Pos
  | .plain _ _ d => d
  | .promotion _ _ d _ => d
  | .castling _ _ d _ _ _ => d

/-- The `start_position` field shared by all move kinds. -/
def Move.start_position : Move → Pos
  | .plain _ s _ => s
  | .promotion _ s _ _ => s
  | .castling _ s _ _ _ _ => s

/-- The `piece` field shared by all move kinds. -/
def Move.piece : Move → Piece
  | .plain p _ _ => p
  | .promotion p _ _ _ => p
  | .castling p _ _ _ _ _ => p

/-- Embeds `Move.execute` (the base-class body): place the piece on the
destination square, clear the start square, set `is_moved`.  In the
source the board square and `self.piece` alias one object, so the
`is_moved = True` write is visible through the destination square; in
the value embedding the placed piece carries the flag directly. -/
def Move.execute_base (piece : Piece) (start_position destination : Pos) (b : Board) : Board :=
  (b.set destination (some { piece with is_moved := true })).set start_position none

/-- Embeds `Move.execute` for each move kind.

* `MoveWithPromotion.execute` runs the base body, then overwrites the
  destination with `promoted_to`.
* `MoveCastling.execute` runs the base body, then places the rook
  (`rock`) on `rook_destination`, clears `rook_start` and sets the
  rook's `is_moved` (again an aliased write in the source). -/
def Move.execute : Move → Board → Board
  | .plain piece s d, b => Move.execute_base piece s d b
  | .promotion piece s d promoted_to, b =>
      (Move.execute_base piece s d b).set d (some promoted_to)
  | .castling piece s d rock rook_start rook_destination, b =>
      ((Move.execute_base piece s d b).set rook_destination
        (some { rock with is_moved := true })).set rook_start none

/-! ## Pseudo-legal move generation (`Piece._possible_moves`) -/

/-- Embeds `Pawn._possible_moves`: one square forward when empty
(promoting to a fresh queen on the promotion row), the double step from
the start row, then the two diagonal captures (dx = -1 first, as in the
source loop). -/
def pawnMoves (p : Piece) (x y : Int) (b : Board) : List Move :=
  let direction := p.player.direction
  let forward :=
    if Board.is_inside (x, y + direction) && (b.get (x, y + direction)).isNone then
      (if y + direction != p.player.promotion_row then
        [Move.plain p (x, y) (x, y + direction)]
       else
        [Move.promotion p (x, y) (x, y + direction) ⟨.queen, p.player, false⟩])
      ++
      (if !p.is_moved && y == p.player.pawn_start_row
          && (b.get (x, y + 2 * direction)).isNone then
        [Move.plain p (x, y) (x, y + 2 * direction)]
       else [])
    else []
  let captures :=
    ([-1, 1] : List Int).foldr (fun dx acc =>
      (if Board.is_inside (x + dx, y + direction)
          && (match b.get (x + dx, y + direction) with
              | some cell => cell.player != p.player
              | none => false) then
        (if y + direction != p.player.promotion_row then
          [Move.plain p (x, y) (x + dx, y + direction)]
         else
          [Move.promotion p (x, y) (x + dx, y + direction) ⟨.queen, p.player, false⟩])
       else []) ++ acc) []
  forward ++ captures

/-- `Knight._vectors` from `logic/pieces.py`. -/
def knightVectors : List (Int × Int) :=
  [(2, 1), (2, -1), (-2, 1), (-2, -1), (1, 2), (1, -2), (-1, 2), (-1, -2)]

/-- `King._vectors` from `logic/pieces.py`. -/
def kingVectors : List (Int × Int) :=
  [(1, 1), (1, -1), (-1, 1), (-1, -1), (1, 0), (-1, 0), (0, 1), (0, -1)]

/-- Embeds `PieceWithDiscreteMoves._possible_moves` together with
`_possible_moves_in_direction`: one step per vector, kept when in
bounds and not landing on a friendly piece. -/
def stepMoves (p : Piece) (vectors : List (Int × Int)) (x y : Int) (b : Board) : List Move :=
  vectors.foldr (fun v acc =>
    (if Board.is_inside (x + v.1, y + v.2) then
      match b.get (x + v.1, y + v.2) with
      | none => [Move.plain p (x, y) (x + v.1, y + v.2)]
      | some cell =>
          if cell.player != p.player then [Move.plain p (x, y) (x + v.1, y + v.2)] else []
     else []) ++ acc) []

/-- `Bishop._directions` from `logic/pieces.py`. -/
def bishopDirections : List (Int × Int) := [(1, 1), (1, -1), (-1, 1), (-1, -1)]

/-- `Rook._directions` from `logic/pieces.py`. -/
def rookDirections : List (Int × Int) := [(1, 0), (-1, 0), (0, 1), (0, -1)]

/-- `Queen._directions` from `logic/pieces.py`. -/
def queenDirections : List (Int × Int) :=
  [(1, 1), (1, -1), (-1, 1), (-1, -1), (1, 0), (-1, 0), (0, 1), (0, -1)]

/-- One direction of `PieceWithStraightMoves._possible_moves`: walk
until leaving the board, stopping after an enemy capture or before a
friendly piece.  The source's `while` loop needs no fuel; here a fuel
of 8 is strictly more steps than any in-bounds ray can have (a unit
direction leaves the 8-wide board within 8 steps), so the fuel never
truncates the walk and the `is_inside`/occupancy tests alone stop it,
exactly as in the source. -/
def slideFrom (p : Piece) (start_pos : Pos) (dx dy : Int) (b : Board) :
    Nat → Int → Int → List Move
  | 0, _, _ => []
  | fuel + 1, x, y =>
    if Board.is_inside (x, y) then
      match b.get (x, y) with
      | none => Move.plain p start_pos (x, y) :: slideFrom p start_pos dx dy b fuel (x + dx) (y + dy)
      | some cell =>
          if cell.player != p.player then [Move.plain p start_pos (x, y)] else []
    else []

/-- Embeds `PieceWithStraightMoves._possible_moves`: rays in each of
the class's `_directions`, starting one step away from the piece. -/
def slideMoves (p : Piece) (directions : List (Int × Int)) (x y : Int) (b : Board) : List Move :=
  directions.foldr (fun d acc => slideFrom p (x, y) d.1 d.2 b 8 (x + d.1) (y + d.2) ++ acc) []

/-- `all(board[xx, y] is None for xx in range(lo, hi))` from
`King._possible_moves`. -/
def allNoneInColumns (b : Board) (y lo hi : Int) : Bool :=
  ((List.range (hi - lo).toNat).map (fun i => lo + (i : Int))).all
    (fun xx => (b.get (xx, y)).isNone)

/-- Embeds `King._possible_moves`: the eight one-step moves, then the
two castling candidates.  The source checks, for each side, only that
the king has not moved (`self.is_moved`), that the corner square of
the king's rank holds a friendly `Rook`, and that the squares strictly
between are empty — it never reads the rook's `is_moved` flag. -/
def kingMoves (p : Piece) (x y : Int) (b : Board) : List Move :=
  stepMoves p kingVectors x y b
  ++
  (match b.get (0, y) with
   | some fig_to_the_left =>
     if !p.is_moved && fig_to_the_left.kind == .rook
        && fig_to_the_left.player == p.player
        && allNoneInColumns b y 1 x then
       [Move.castling p (x, y) (x - 2, y) fig_to_the_left (0, y) (x - 1, y)]
     else []
   | none => [])
  ++
  (match b.get (7, y) with
   | some fig_to_the_right =>
     if !p.is_moved && fig_to_the_right.kind == .rook
        && fig_to_the_right.player == p.player
        && allNoneInColumns b y (x + 1) 7 then
       [Move.castling p (x, y) (x + 2, y) fig_to_the_right (7, y) (x + 1, y)]
     else []
   | none => [])

/-- Embeds the virtual dispatch of `Piece._possible_moves` over the six
concrete subclasses. -/
def Piece.pseudoMoves (p : Piece) (x y : Int) (b : Board) : List Move :=
  match p.kind with
  | .pawn => pawnMoves p x y b
  | .knight => stepMoves p knightVectors x y b
  | .bishop => slideMoves p bishopDirections x y b
  | .rook => slideMoves p rookDirections x y b
  | .queen => slideMoves p queenDirections x y b
  | .king => kingMoves p x y b

/-! ## Attack detection and the legality filter -/

/-- Embeds `Board.iter_pieces()` with no filter: row-major scan,
skipping empty squares. -/
def Board.iter_pieces (b : Board) : List (Pos × Piece) :=
  (List.range 8).foldr (fun y acc =>
    ((List.range 8).filterMap (fun x =>
      match b.get ((x : Int), (y : Int)) with
      | some piece => some ((((x : Int), (y : Int)) : Pos), piece)
      | none => none)) ++ acc) []

/-- Embeds `Board.iter_pieces(player=player)`. -/
def Board.iter_pieces_player (b : Board) (player : Player) : List (Pos × Piece) :=
  b.iter_pieces.filter (fun q => q.2.player == player)

/-- Embeds `Piece.is_check`: some pseudo-legal destination of this
piece holds an enemy king.  Uses pseudo-legal generation, so check
detection never recurses into the legality filter. -/
def Piece.is_check (p : Piece) (x y : Int) (b : Board) : Bool :=
  (p.pseudoMoves x y b).any (fun move =>
    match b.get move.destination with
    | some target => target.kind == .king && target.player != p.player
    | none => false)

/-- Embeds `Board.is_in_check`: some piece of the opponent attacks
`player`'s king. -/
def Board.is_in_check (b : Board) (player : Player) : Bool :=
  (b.iter_pieces_player player.opponent).any (fun q => q.2.is_check q.1.1 q.1.2 b)

/-- Embeds `Piece.possible_moves` (the legality filter), returning also
the board the caller's `board` variable refers to after the enumeration
finishes.  In the source each iteration deep-copies the board and the
move and runs `move.execute` on the copy only; in the value embedding
the copies are the local bindings and the input board is returned
untouched. -/
def Piece.possible_moves_with_board (p : Piece) (x y : Int) (b : Board) :
    List Move × Board :=
  ((p.pseudoMoves x y b).filterMap (fun move =>
    let new_board := b
    let new_board := move.execute new_board
    if !(new_board.is_in_check p.player) then some move else none), b)

/-- The moves yielded by `Piece.possible_moves`. -/
def Piece.possible_moves (p : Piece) (x y : Int) (b : Board) : List Move :=
  (p.possible_moves_with_board x y b).1

/-- Embeds `Piece.has_possible_move`. -/
def Piece.has_possible_move (p : Piece) (x y : Int) (b : Board) : Bool :=
  !(p.possible_moves x y b).isEmpty

/-! ## Terminal detection (`board.py`) -/

/-- Embeds `Board.is_in_checkmate`: in check, and no piece of `player`
has a legal move (the source's early-return loop over
`iter_pieces(player=player)`). -/
def Board.is_in_checkmate (b : Board) (player : Player) : Bool :=
  b.is_in_check player
  && (b.iter_pieces_player player).all (fun q => !(q.2.has_possible_move q.1.1 q.1.2 b))

/-- Embeds `Board.is_in_stalemate`: not in check, and no piece of
`player` has a legal move. -/
def Board.is_in_stalemate (b : Board) (player : Player) : Bool :=
  !(b.is_in_check player)
  && (b.iter_pieces_player player).all (fun q => !(q.2.has_possible_move q.1.1 q.1.2 b))

/-- One iteration of the `for player in Player` loop of
`Board.check_winner`. -/
def Board.check_winner_for (b : Board) (player : Player) : Option Result :=
  if b.is_in_checkmate player then
    some ⟨some player.opponent, .checkmate⟩
  else if b.is_in_stalemate player then
    some ⟨none, .stalemate⟩
  else
    none

/-- Embeds `Board.check_winner`: scan the players in enum definition
order (white, then black); the first checkmate or stalemate found
returns, otherwise `None`. -/
def Board.check_winner (b : Board) : Option Result :=
  match b.check_winner_for .white with
  | some r => some r
  | none => b.check_winner_for .black

/-- Embeds `Board.possible_moves` (thin wrapper used by the UI): the
legal moves of the piece on `(x, y)`. -/
def Board.possible_moves (b : Board) (x y : Int) : List Move :=
  match b.get (x, y) with
  | some piece => piece.possible_moves x y b
  | none => []

/-! ## The initial arrangement (`Board.initial` / `add_start_pieces`) -/

/-- The black back rank written by `Board.add_start_pieces` (row 0). -/
def backRank (player : Player) : List (Option Piece) :=
  [some ⟨.rook, player, false⟩, some ⟨.knight, player, false⟩,
   some ⟨.bishop, player, false⟩, some ⟨.queen, player, false⟩,
   some ⟨.king, player, false⟩, some ⟨.bishop, player, false⟩,
   some ⟨.knight, player, false⟩, some ⟨.rook, player, false⟩]

/-- A rank of eight pawns of `player`. -/
def pawnRank (player : Player) : List (Option Piece) :=
  List.replicate 8 (some ⟨.pawn, player, false⟩)

/-- An empty rank. -/
def emptyRank : List (Option Piece) :=
  List.replicate 8 none

/-- Embeds `Board.initial()`: black's pieces on rows 0-1, white's on
rows 6-7, exactly the squares written by `add_start_pieces`. -/
def Board.initial : Board :=
  ⟨[backRank .black, pawnRank .black,
    emptyRank, emptyRank, emptyRank, emptyRank,
    pawnRank .white, backRank .white]⟩

/-! ## The position hashes (`Board.hash`, `ChessAI._hash_board`)

Both functions in the source hash an object whose Python hash is
derived from the object's identity (its `id()`), not from the piece
placement:

* `Board.hash` evaluates `hash(g)` where `g` is the *generator
  expression* `tuple(tuple(piece for piece in row)) for row in
  self.field` — `hash` receives the generator object itself, never
  iterates it, and returns the generator's default identity-based
  hash.  The board contents are never read.
* `ChessAI._hash_board` evaluates `hash(str(board))`; `Board` defines
  no `__str__`/`__repr__`, so `str(board)` is the default
  `<logic.board.Board object at 0x...>` containing the board object's
  memory address, and the hash depends only on that address.

The embedding makes the identity dependence explicit: `objId` is the
identity of the freshly allocated object (the generator in
`Board.hash`, the board object in `_hash_board`), supplied by an
allocation counter threaded through the callers; `objectHash` is the
identity-derived hash, injective in the identity of simultaneously
live objects. -/

/-- CPython's default `object.__hash__`, derived from the object id. -/
def objectHash (objId : Nat) : Int := (objId : Int)

/-- Embeds `Board.hash`: the hash of a freshly created generator
object; the board is never read. -/
def Board.hash (_b : Board) (generatorId : Nat) : Int :=
  objectHash generatorId

/-- Embeds `ChessAI._hash_board`: the hash of the default repr string
of the board object, which depends only on the object's address. -/
def ChessAI.hash_board (_b : Board) (boardObjId : Nat) : Int :=
  objectHash boardObjId

/-! ## The search engine (`ai.py`)

Scores in the source are Python ints except for the `float("-inf")` /
`float("inf")` window bounds, which flow through `max`/negation/
comparisons together with the ints; `Score` is exactly that value
space. -/

/-- An `int` score or one of the two `float` infinities used as window
bounds. -/
inductive Score where
  | negInf
  | fin (n : Int)
  | posInf
deriving DecidableEq, Repr

/-- Python unary minus on a score. -/
def Score.neg : Score → Score
  | .negInf => .posInf
  | .posInf => .negInf
  | .fin n => .fin (-n)

/-- Python `a <= b` on scores. -/
def Score.le : Score → Score → Bool
  | .negInf, _ => true
  | _, .posInf => true
  | .fin a, .fin c => decide (a ≤ c)
  | .posInf, _ => false
  | .fin _, .negInf => false

/-- Python `a < b` on scores. -/
def Score.lt : Score → Score → Bool
  | .negInf, .negInf => false
  | .negInf, _ => true
  | .fin a, .fin c => decide (a < c)
  | .fin _, .posInf => true
  | .fin _, .negInf => false
  | .posInf, _ => false

/-- Python `max(a, b)`: `a` when `a >= b`, else `b`. -/
def Score.max (a c : Score) : Score :=
  if Score.le c a then a else c

/-- The `piece_values` table of `ChessAI._evaluate_board`. -/
def piece_values : PieceKind → Int
  | .king => 1000
  | .queen => 9
  | .rook => 5
  | .bishop => 3
  | .knight => 3
  | .pawn => 1

/-- Embeds `ChessAI._evaluate_board`.  `ai_player` is `self.player`
(the AI's fixed identity) and `game_board` is `self.game.board` — the
*live* game board, which is what the source passes to `check_winner`
for the terminal override (it does not consult the board `b` being
evaluated for that test). -/
def ChessAI.evaluate_board (ai_player : Player) (game_board : Board) (b : Board) : Int :=
  let value := b.iter_pieces.foldl (fun acc q =>
    if q.2.player == ai_player then acc + piece_values q.2.kind
    else acc - piece_values q.2.kind) 0
  match game_board.check_winner with
  | some end_of_the_game =>
      if end_of_the_game.winner == some ai_player then 10000 else -10000
  | none => value

/-- Embeds `ChessAI._order_moves`: all legal moves of `player`'s
pieces, captures first, each group in generation order. -/
def ChessAI.order_moves (b : Board) (player : Player) : List Move :=
  let all := (b.iter_pieces_player player).foldr
    (fun q acc => q.2.possible_moves q.1.1 q.1.2 b ++ acc) []
  let parts := all.partition (fun move => (b.get move.destination).isSome)
  parts.1 ++ parts.2

/-- The `for move in moves` loop body of `ChessAI._search`, with the
recursive call abstracted: execute the move on a copy, recurse with the
negated, swapped window, negate, fold into `alpha`, and return early
once `alpha >= beta`; falling off the loop returns `alpha`. -/
def ChessAI.searchLoop (recurse : Board → Score → Score → Score) (b : Board)
    (beta : Score) : List Move → Score → Score
  | [], alpha => alpha
  | move :: moves, alpha =>
    let board_copy := move.execute b
    let score := (recurse board_copy beta.neg alpha.neg).neg
    let alpha2 := Score.max alpha score
    if Score.le beta alpha2 then alpha2
    else ChessAI.searchLoop recurse b beta moves alpha2

/-- Embeds `ChessAI._search`: at depth 0 the static evaluation,
otherwise the alpha-beta loop over `_order_moves(board, player)`. -/
def ChessAI.search (ai_player : Player) (game_board : Board) :
    Nat → Board → Player → Score → Score → Score
  | 0, b, _player, _alpha, _beta => .fin (ChessAI.evaluate_board ai_player game_board b)
  | depth + 1, b, player, alpha, beta =>
    ChessAI.searchLoop
      (fun board_copy a2 b2 => ChessAI.search ai_player game_board depth board_copy player.opponent a2 b2)
      b beta (ChessAI.order_moves b player) alpha

/-- The cache entries of `ChessAI.transposition_table`, keyed by
`_hash_board` values. -/
abbrev TranspositionTable := List (Int × Score)

/-- The loop of `ChessAI._iter_possible_moves_in_depth` at `depth + 1`:
for each move, execute it on a fresh deep copy (a fresh object, whose
modeled id is the current allocation counter), key the copy with
`_hash_board`, reuse a cached score or search and store, yield
`(move, score)`, and stop after the yield once `alpha >= beta`.
Returns the yielded pairs together with the final table and counter. -/
def ChessAI.iterLoop (ai_player : Player) (game_board : Board) (depth : Nat) (player : Player)
    (b : Board) (beta : Score) :
    List Move → Score → TranspositionTable → Nat →
    List (Move × Score) × TranspositionTable × Nat
  | [], _alpha, table, alloc => ([], table, alloc)
  | move :: moves, alpha, table, alloc =>
    let board_copy := move.execute b
    let board_key := ChessAI.hash_board board_copy alloc
    let alloc2 := alloc + 1
    match table.lookup board_key with
    | some score =>
      let alpha2 := Score.max alpha score
      if Score.le beta alpha2 then ([(move, score)], table, alloc2)
      else
        let rest := ChessAI.iterLoop ai_player game_board depth player b beta moves alpha2 table alloc2
        ((move, score) :: rest.1, rest.2)
    | none =>
      let score := (ChessAI.search ai_player game_board depth board_copy player.opponent
        beta.neg alpha.neg).neg
      let table2 := table ++ [(board_key, score)]
      let alpha2 := Score.max alpha score
      if Score.le beta alpha2 then ([(move, score)], table2, alloc2)
      else
        let rest := ChessAI.iterLoop ai_player game_board depth player b beta moves alpha2 table2 alloc2
        ((move, score) :: rest.1, rest.2)

/-- Embeds `ChessAI._iter_possible_moves_in_depth`.  At depth 0 the
generator body executes `return None, score`, which in a generator
merely stops the iteration: nothing is yielded. -/
def ChessAI.iter_possible_moves_in_depth (ai_player : Player) (game_board : Board)
    (b : Board) (player : Player) (depth : Nat) (alpha beta : Score)
    (table : TranspositionTable) (alloc : Nat) :
    List (Move × Score) × TranspositionTable × Nat :=
  match depth with
  | 0 => ([], table, alloc)
  | d + 1 => ChessAI.iterLoop ai_player game_board d player b beta
      (ChessAI.order_moves b player) alpha table alloc

/-- Embeds `ChessAI.get_best_move`: consume every yielded
`(move, score)` pair, keeping the first strictly-best move; starts from
`best_move = None`, `best_score = -inf`. -/
def ChessAI.get_best_move (ai_player : Player) (game_board : Board) (depth : Nat)
    (table : TranspositionTable) (alloc : Nat) :
    Option Move × TranspositionTable × Nat :=
  let out := ChessAI.iter_possible_moves_in_depth ai_player game_board game_board ai_player
    depth .negInf .posInf table alloc
  let best := out.1.foldl
    (fun acc ms => if Score.lt acc.2 ms.2 then (some ms.1, ms.2) else acc)
    ((none : Option Move), Score.negInf)
  (best.1, out.2)

/-! ## The game orchestrator (`game.py`) -/

/-- The state of a bound `ChessAI` instance: its fixed player and its
transposition table. -/
structure AIState where
  player : Player
  transposition_table : TranspositionTable
deriving DecidableEq, Repr

/-- Embeds `logic.game.ChessGame`.  `alloc` is the modeled allocation
counter supplying the object identities that `_hash_board` hashes (see
the position-hash section); it is process state in Python, threaded
through the game here. -/
structure ChessGame where
  board : Board
  current_player : Player
  ai : Option AIState
  alloc : Nat
deriving DecidableEq, Repr

/-- Embeds `ChessGame.__init__` (fresh allocation state). -/
def ChessGame.new (board : Board) (ai : Bool) : ChessGame :=
  ⟨board, .white, if ai then some ⟨.black, []⟩ else none, 0⟩

/-- The ways `ChessGame.move_piece` can fail.  The first three are the
source's `ValueError`s, named as in the specification; `ai_no_move`
models the `AttributeError` the source would raise executing
`best_move.execute` when `get_best_move` returned `None` (shown
unreachable below). -/
inductive MoveError where
  | no_piece_at_square
  | wrong_turn
  | illegal_move
  | ai_no_move
deriving DecidableEq, Repr

/-- The tail of `ChessGame.move_piece` after the matched move has been
found: execute it on the live board, return a non-empty `check_winner`
immediately, otherwise flip the turn and, when an AI is bound, run the
search at depth 2, execute its move, re-check the winner and flip
again. -/
def ChessGame.after_match (g : ChessGame) (move : Move) :
    Except MoveError (Option Result) × ChessGame :=
  let board2 := move.execute g.board
  match board2.check_winner with
  | some end_of_the_game => (.ok (some end_of_the_game), { g with board := board2 })
  | none =>
    let g2 := { g with board := board2, current_player := g.current_player.opponent }
    match g2.ai with
    | none => (.ok none, g2)
    | some ai =>
      let out := ChessAI.get_best_move ai.player g2.board 2 ai.transposition_table g2.alloc
      let g3 := { g2 with ai := some { ai with transposition_table := out.2.1 },
                          alloc := out.2.2 }
      match out.1 with
      | none => (.error .ai_no_move, g3)
      | some best_move =>
        let board3 := best_move.execute g3.board
        let g4 := { g3 with board := board3 }
        match board3.check_winner with
        | some end_of_the_game => (.ok (some end_of_the_game), g4)
        | none => (.ok none, { g4 with current_player := g4.current_player.opponent })

/-- Embeds `ChessGame.move_piece`: the three validation errors in
source order, then the first legal move whose destination matches
`end_pos` is executed (`ChessGame.after_match`).  Returns the result
(or error) together with the game state after the call. -/
def ChessGame.move_piece (g : ChessGame) (start_pos end_pos : Pos) :
    Except MoveError (Option Result) × ChessGame :=
  match g.board.get start_pos with
  | none => (.error .no_piece_at_square, g)
  | some piece =>
    if piece.player != g.current_player then (.error .wrong_turn, g)
    else
      match (piece.possible_moves start_pos.1 start_pos.2 g.board).find?
          (fun move => move.destination == end_pos) with
      | none => (.error .illegal_move, g)
      | some move => ChessGame.after_match g move

/-! ## Derived counts and concrete positions used in the theorems -/

/-- Total number of legal moves of `player`, summed over all of
`player`'s pieces (each piece's `possible_moves` from its square). -/
def legalMoveCount (b : Board) (player : Player) : Nat :=
  ((b.iter_pieces_player player).map
    (fun q => (q.2.possible_moves q.1.1 q.1.2 b).length)).foldr (· + ·) 0

/-- As `legalMoveCount`, restricted to pieces of kind `k`. -/
def legalMoveCountOfKind (b : Board) (player : Player) (k : PieceKind) : Nat :=
  (((b.iter_pieces_player player).filter (fun q => q.2.kind == k)).map
    (fun q => (q.2.possible_moves q.1.1 q.1.2 b).length)).foldr (· + ·) 0

/-- Embeds the `Board()` constructor default: an 8×8 grid of `None`. -/
def Board.empty : Board :=
  ⟨List.replicate 8 emptyRank⟩

/-- A lone white king on (0, 7). -/
def loneKingBoard : Board :=
  Board.empty.set (0, 7) (some ⟨.king, .white, false⟩)

/-- A lone white king on (4, 7): a position in which black has no
pieces, hence no legal moves. -/
def c5Board : Board :=
  Board.empty.set (4, 7) (some ⟨.king, .white, false⟩)

/-- Two kings far apart: `check_winner` is empty (both sides have
moves and neither is in check). -/
def kingsOnlyBoard : Board :=
  (Board.empty.set (0, 0) (some ⟨.king, .white, false⟩)).set (7, 7)
    (some ⟨.king, .black, false⟩)

/-- Black king cornered on (0, 0), white queen on (1, 1) guarded by the
white king on (2, 2): black is checkmated, so `check_winner` reports
white as the winner. -/
def mateBoard : Board :=
  ((Board.empty.set (0, 0) (some ⟨.king, .black, false⟩)).set (1, 1)
    (some ⟨.queen, .white, false⟩)).set (2, 2) (some ⟨.king, .white, false⟩)

/-- The unmoved black king used in the castling counterexample. -/
def c4King : Piece := ⟨.king, .black, false⟩

/-- A black rook that HAS already moved (`is_moved = true`), standing
back on its corner square. -/
def c4Rook : Piece := ⟨.rook, .black, true⟩

/-- Black king on its home square (4, 0), the already-moved black rook
on the corner (0, 0), the squares between them empty. -/
def c4Board : Board :=
  (Board.empty.set (4, 0) (some c4King)).set (0, 0) (some c4Rook)

/-- The queen-side castling move the source generates on `c4Board`
even though the rook has moved. -/
def c4CastlingMove : Move :=
  Move.castling c4King (4, 0) (2, 0) c4Rook (0, 0) (3, 0)

/-- Black king cornered on (0, 0); white rooks on (7, 1) and (6, 3).
Moving the second rook to (6, 0) delivers checkmate. -/
def preMateBoard : Board :=
  ((Board.empty.set (0, 0) (some ⟨.king, .black, false⟩)).set (7, 1)
    (some ⟨.rook, .white, false⟩)).set (6, 3) (some ⟨.rook, .white, false⟩)

/-- The mating rook move on `preMateBoard`. -/
def c7Move : Move :=
  Move.plain ⟨.rook, .white, false⟩ (6, 3) (6, 0)

/-- Every key already stored in the transposition table is below the
game's allocation counter.  This holds for every game the source can
build (`__init__` starts with an empty table, and each search stores
only keys of objects allocated during that search); it rules out the
stale-cache-hit states an arbitrary `ChessGame` value could encode. -/
def ChessGame.table_fresh (g : ChessGame) : Bool :=
  match g.ai with
  | none => true
  | some ai => ai.transposition_table.all (fun kv => decide (kv.1 < (g.alloc : Int)))

/-! ## Helper lemmas -/

/-- A move passes the legality filter exactly when it is pseudo-legal
and its execution leaves the owner out of check. -/
theorem mem_possible_moves {p : Piece} {x y : Int} {b : Board} {m : Move} :
    m ∈ p.possible_moves x y b ↔
      m ∈ p.pseudoMoves x y b ∧ (m.execute b).is_in_check p.player = false := by
  unfold Piece.possible_moves Piece.possible_moves_with_board
  simp only [List.mem_filterMap]
  constructor
  · rintro ⟨a, ha, heq⟩
    by_cases hc : (Move.execute a b).is_in_check p.player
    · simp [hc] at heq
    · simp only [hc, Bool.not_false, if_true, Option.some.injEq] at heq
      subst heq
      exact ⟨ha, by simpa using hc⟩
  · rintro ⟨ha, hc⟩
    exact ⟨m, ha, by simp [hc]⟩

/-! ## C1 -/

/-- C1.  Legality filter soundness: every move yielded by
`Piece.possible_moves`, executed on the same board, leaves the mover's
own side out of check. -/
theorem C1_legality_filter_sound (p : Piece) (x y : Int) (b : Board) (m : Move)
    (h : m ∈ p.possible_moves x y b) :
    (m.execute b).is_in_check p.player = false :=
  (mem_possible_moves.mp h).2

/-- Witness for C1: on a board with a lone white king on (0, 7), the
king step to (1, 7) is yielded, and executing it leaves white out of
check. -/
theorem C1_legality_filter_sound_witness :
    (Move.plain ⟨.king, .white, false⟩ (0, 7) (1, 7) ∈
      (⟨.king, .white, false⟩ : Piece).possible_moves 0 7 loneKingBoard)
    ∧ ((Move.plain ⟨.king, .white, false⟩ (0, 7) (1, 7)).execute loneKingBoard).is_in_check
        .white = false :=
  ⟨by decide, C1_legality_filter_sound ⟨.king, .white, false⟩ 0 7 loneKingBoard _ (by decide)⟩

/-! ## C2 -/

/-- C2.  The position hashes do NOT satisfy the claim: both
`Board.hash` and `ChessAI._hash_board` depend only on the identity of
a freshly allocated object (the generator expression, resp. the board
object whose address appears in its default repr) and never on the
piece placement.  So every two boards — identical or not — hash alike
at the same allocation id, while the very same board hashes differently
under two different allocation ids (e.g. two live generator objects). -/
theorem C2_position_hash_ignores_placement :
    (∀ (b1 b2 : Board) (generatorId : Nat), Board.hash b1 generatorId = Board.hash b2 generatorId)
    ∧ Board.hash Board.initial 0 ≠ Board.hash Board.initial 1
    ∧ (∀ (b1 b2 : Board) (boardObjId : Nat),
        ChessAI.hash_board b1 boardObjId = ChessAI.hash_board b2 boardObjId)
    ∧ ChessAI.hash_board Board.initial 0 ≠ ChessAI.hash_board Board.initial 1 :=
  ⟨fun _ _ _ => rfl, by decide, fun _ _ _ => rfl, by decide⟩

/-! ## C3 -/

/-- C3.  The static evaluator consults `check_winner` of the LIVE game
board (`self.game.board`), not of the board being evaluated: with the
live board a quiet two-king position and the evaluated board a position
where black is checkmated (winner = white = the AI's player), the
source returns the material sum 9, not the +10000 the claim requires. -/
theorem C3_evaluate_checks_wrong_board :
    mateBoard.check_winner = some ⟨some .white, .checkmate⟩
    ∧ kingsOnlyBoard.check_winner = none
    ∧ ChessAI.evaluate_board .white kingsOnlyBoard mateBoard = 9
    ∧ (9 : Int) ≠ 10000 := by
  refine ⟨by decide, by decide, by decide, by decide⟩

/-! ## C4 -/

/-- C4.  Castling generation ignores the rook's `is_moved` flag: on a
board whose black a-file rook has already moved (`is_moved = true`),
with an unmoved black king on (4, 0) and the squares between them
empty, the king's pseudo-legal generation still yields the queen-side
castling move. -/
theorem C4_castling_ignores_rook_moved :
    c4Rook.is_moved = true
    ∧ c4King.is_moved = false
    ∧ c4Board.get (0, 0) = some c4Rook
    ∧ c4CastlingMove ∈ c4King.pseudoMoves 4 0 c4Board := by
  refine ⟨rfl, rfl, by decide, by decide⟩

/-! ## C5 -/

/-- Counterexample for C5: on a board where black has no pieces (hence
no legal moves), `_search` at depth 1 returns the `alpha` bound it was
given (5), not the static evaluation it returns at depth 0 (1000). -/
theorem C5_search_no_moves_counterexample :
    ChessAI.order_moves c5Board .black = []
    ∧ ChessAI.search .white kingsOnlyBoard 1 c5Board .black (.fin 5) (.fin 10) = .fin 5
    ∧ ChessAI.search .white kingsOnlyBoard 0 c5Board .black (.fin 5) (.fin 10) = .fin 1000
    ∧ Score.fin 5 ≠ Score.fin 1000 := by
  refine ⟨by decide, by decide, by decide, by decide⟩

/-- C5 (amended).  When the player to move has no legal moves at a
non-zero remaining depth, `_search` returns the `alpha` bound it was
passed (the `return alpha` after the skipped loop), not the static
evaluation. -/
theorem C5_search_no_moves_returns_alpha (ai_player : Player) (game_board b : Board)
    (player : Player) (d : Nat) (alpha beta : Score)
    (h : ChessAI.order_moves b player = []) :
    ChessAI.search ai_player game_board (d + 1) b player alpha beta = alpha := by
  simp [ChessAI.search, h, ChessAI.searchLoop]

/-- Witness for the amended C5. -/
theorem C5_search_no_moves_returns_alpha_witness :
    ChessAI.search .white kingsOnlyBoard (0 + 1) c5Board .black (.fin 5) (.fin 10) = .fin 5 :=
  C5_search_no_moves_returns_alpha .white kingsOnlyBoard c5Board .black 0 (.fin 5) (.fin 10)
    (by decide)

/-! ## C8 -/

/-- C8.  From the standard initial position, white has exactly 20 legal
moves: 16 pawn moves and 4 knight moves. -/
theorem C8_initial_position_20_moves :
    legalMoveCount Board.initial .white = 20
    ∧ legalMoveCountOfKind Board.initial .white .pawn = 16
    ∧ legalMoveCountOfKind Board.initial .white .knight = 4 := by
  refine ⟨by decide, by decide, by decide⟩

/-! ## C9 -/

/-- C9.  Enumerating `possible_moves` leaves the input board unchanged:
after the enumeration, every square of the caller's board holds exactly
what it held before (the simulation mutates only the per-iteration
copies). -/
theorem C9_possible_moves_preserves_board :
    ∀ (p : Piece) (x y : Int) (b : Board) (pos : Pos),
      ((p.possible_moves_with_board x y b).2).get pos = b.get pos :=
  fun _ _ _ _ _ => rfl

/-! ## Helper lemmas for the orchestrator claims (C6, C7, C10) -/

/-- Folding a Python `max` with a finite score never produces `+inf`
from a non-`+inf` accumulator. -/
theorem score_max_fin_ne_posInf {a : Score} {n : Int} (h : a ≠ .posInf) :
    Score.max a (.fin n) ≠ .posInf := by
  unfold Score.max
  split
  · exact h
  · simp

/-- Negation sends non-`+inf` scores to non-`-inf` scores. -/
theorem score_neg_ne_negInf {s : Score} (h : s ≠ .posInf) : s.neg ≠ .negInf := by
  cases s <;> simp [Score.neg] at *

/-- If one player's pass of the `check_winner` loop found nothing, that
player is neither checkmated nor stalemated. -/
theorem check_winner_for_none {b : Board} {pl : Player}
    (h : b.check_winner_for pl = none) :
    b.is_in_checkmate pl = false ∧ b.is_in_stalemate pl = false := by
  unfold Board.check_winner_for at h
  split_ifs at h with h1 h2
  · exact ⟨by simpa using h1, by simpa using h2⟩

/-- If `check_winner` is empty, no player is checkmated or stalemated. -/
theorem check_winner_none {b : Board} (h : b.check_winner = none) (pl : Player) :
    b.is_in_checkmate pl = false ∧ b.is_in_stalemate pl = false := by
  unfold Board.check_winner at h
  cases hw : b.check_winner_for .white with
  | some r => rw [hw] at h; cases h
  | none =>
    rw [hw] at h
    cases pl
    · exact check_winner_for_none hw
    · exact check_winner_for_none h

/-- A player who is neither checkmated nor stalemated has a piece with
a legal move. -/
theorem exists_possible_move_of_not_terminal {b : Board} {pl : Player}
    (hm : b.is_in_checkmate pl = false) (hs : b.is_in_stalemate pl = false) :
    ∃ q ∈ b.iter_pieces_player pl, q.2.has_possible_move q.1.1 q.1.2 b = true := by
  unfold Board.is_in_checkmate at hm
  unfold Board.is_in_stalemate at hs
  have hall : (b.iter_pieces_player pl).all
      (fun q => !(q.2.has_possible_move q.1.1 q.1.2 b)) = false := by
    cases hc : b.is_in_check pl
    · rw [hc] at hs; simpa using hs
    · rw [hc] at hm; simpa using hm
  have hnot : ¬ ∀ q ∈ b.iter_pieces_player pl,
      (!(q.2.has_possible_move q.1.1 q.1.2 b)) = true := by
    rw [← List.all_eq_true]
    simp [hall]
  push_neg at hnot
  obtain ⟨q, hq, hne⟩ := hnot
  exact ⟨q, hq, by simpa using hne⟩

/-- Membership in a fold of list-concatenations. -/
theorem mem_foldr_append {α β : Type} (f : α → List β) (l : List α) (q : α) (m : β)
    (hq : q ∈ l) (hm : m ∈ f q) :
    m ∈ l.foldr (fun a acc => f a ++ acc) [] := by
  induction l with
  | nil => cases hq
  | cons a t ih =>
    rcases List.mem_cons.mp hq with h | h
    · subst h; exact List.mem_append.mpr (Or.inl hm)
    · exact List.mem_append.mpr (Or.inr (ih h))

/-- If some piece of `player` has a legal move, `_order_moves` is
non-empty. -/
theorem order_moves_ne_nil {b : Board} {pl : Player}
    (h : ∃ q ∈ b.iter_pieces_player pl, q.2.has_possible_move q.1.1 q.1.2 b = true) :
    ChessAI.order_moves b pl ≠ [] := by
  obtain ⟨q, hq, hmove⟩ := h
  have hne : q.2.possible_moves q.1.1 q.1.2 b ≠ [] := by
    unfold Piece.has_possible_move at hmove
    simpa using hmove
  obtain ⟨m, hm⟩ := List.exists_mem_of_ne_nil _ hne
  have hall : m ∈ (b.iter_pieces_player pl).foldr
      (fun q acc => q.2.possible_moves q.1.1 q.1.2 b ++ acc) [] :=
    mem_foldr_append _ _ q m hq hm
  unfold ChessAI.order_moves
  simp only [List.partition_eq_filter_filter]
  apply List.ne_nil_of_mem (a := m)
  by_cases hpm : (b.get m.destination).isSome = true
  · exact List.mem_append.mpr (Or.inl (List.mem_filter.mpr ⟨hall, hpm⟩))
  · exact List.mem_append.mpr (Or.inr (List.mem_filter.mpr ⟨hall, by simpa using hpm⟩))

/-- The depth-1 `_search` loop (whose recursive calls are depth-0
static evaluations, always finite) never returns `+inf` from a
non-`+inf` running `alpha`. -/
theorem searchLoop_eval_ne_posInf (ai_player : Player) (game_board : Board)
    (pl : Player) (b : Board) (beta : Score) :
    ∀ (moves : List Move) (alpha : Score), alpha ≠ .posInf →
      ChessAI.searchLoop
        (fun board_copy a2 b2 => ChessAI.search ai_player game_board 0 board_copy pl a2 b2)
        b beta moves alpha ≠ .posInf := by
  intro moves
  induction moves with
  | nil => intro alpha h; simpa [ChessAI.searchLoop] using h
  | cons mv t ih =>
    intro alpha h
    rw [ChessAI.searchLoop]
    simp only [ChessAI.search, Score.neg]
    split
    · exact score_max_fin_ne_posInf h
    · exact ih _ (score_max_fin_ne_posInf h)

/-- `_search` at depth 1 never returns `+inf` when its `alpha` argument
is not `+inf`. -/
theorem search_one_ne_posInf (ai_player : Player) (game_board b : Board) (pl : Player)
    (alpha beta : Score) (h : alpha ≠ .posInf) :
    ChessAI.search ai_player game_board 1 b pl alpha beta ≠ .posInf := by
  rw [show (1 : Nat) = 0 + 1 from rfl, ChessAI.search]
  exact searchLoop_eval_ne_posInf ai_player game_board pl.opponent b beta _ alpha h

/-- Looking up a key at or above every stored key misses. -/
theorem lookup_none_of_keys_lt {table : TranspositionTable} {k : Int}
    (h : ∀ kv ∈ table, kv.1 < k) : table.lookup k = none := by
  induction table with
  | nil => rfl
  | cons kv t ih =>
    obtain ⟨k1, v1⟩ := kv
    have h1 : k1 < k := h (k1, v1) (List.mem_cons_self _ _)
    have hne : (k == k1) = false := by
      simp only [beq_eq_false_iff_ne, ne_eq]
      omega
    simp only [List.lookup, hne]
    exact ih (fun kv hkv => h kv (List.mem_cons_of_mem _ hkv))

/-- The root loop of `_iter_possible_moves_in_depth` at depth 2 (so its
inner searches run at depth 1), with a root window `(alpha, +inf)` and
a table whose keys are all below the allocation counter: it yields at
least one pair when given at least one move, and no yielded score is
`-inf`. -/
theorem iterLoop_one_sound (ai_player : Player) (game_board : Board) (pl : Player) (b : Board) :
    ∀ (moves : List Move) (alpha : Score) (table : TranspositionTable) (alloc : Nat),
      (∀ kv ∈ table, kv.1 < (alloc : Int)) →
      ((moves ≠ [] →
        (ChessAI.iterLoop ai_player game_board 1 pl b .posInf moves alpha table alloc).1 ≠ [])
      ∧ ∀ ms ∈ (ChessAI.iterLoop ai_player game_board 1 pl b .posInf moves alpha table alloc).1,
          ms.2 ≠ Score.negInf) := by
  intro moves
  induction moves with
  | nil =>
    intro alpha table alloc _
    refine ⟨fun hne => absurd rfl hne, ?_⟩
    intro ms hms
    simp [ChessAI.iterLoop] at hms
  | cons mv t ih =>
    intro alpha table alloc hWF
    have hmiss : table.lookup (ChessAI.hash_board (mv.execute b) alloc) = none :=
      lookup_none_of_keys_lt hWF
    have hscore : ((ChessAI.search ai_player game_board 1 (mv.execute b) pl.opponent
        Score.posInf.neg alpha.neg).neg) ≠ Score.negInf :=
      score_neg_ne_negInf (search_one_ne_posInf _ _ _ _ _ _ (by decide))
    constructor
    · intro _
      simp only [ChessAI.iterLoop, hmiss]
      split
      · simp
      · simp
    · intro ms hms
      simp only [ChessAI.iterLoop, hmiss] at hms
      split at hms
      · rcases List.mem_singleton.mp hms with rfl
        exact hscore
      · rcases List.mem_cons.mp hms with rfl | hms2
        · exact hscore
        · refine (ih _ _ _ ?_).2 ms hms2
          intro kv hkv
          rcases List.mem_append.mp hkv with hk | hk
          · have := hWF kv hk
            push_cast
            omega
          · rcases List.mem_singleton.mp hk with rfl
            have hkeq : ChessAI.hash_board (mv.execute b) alloc = (alloc : Int) := rfl
            simp only [hkeq]
            push_cast
            omega

/-- Once the running best is `some`, the `get_best_move` fold keeps it
`some`. -/
theorem foldl_best_isSome_aux :
    ∀ (l : List (Move × Score)) (acc : Option Move × Score), acc.1.isSome = true →
      ((l.foldl (fun acc ms => if Score.lt acc.2 ms.2 then (some ms.1, ms.2) else acc)
        acc).1).isSome = true := by
  intro l
  induction l with
  | nil => intro acc h; exact h
  | cons ms t ih =>
    intro acc h
    rw [List.foldl_cons]
    apply ih
    dsimp only
    split
    · rfl
    · exact h

/-- The `get_best_move` fold over a non-empty yield list with no `-inf`
score selects a move (every score beats the initial `-inf` strictly). -/
theorem foldl_best_isSome (l : List (Move × Score)) (hne : l ≠ [])
    (hsc : ∀ ms ∈ l, ms.2 ≠ Score.negInf) :
    ((l.foldl (fun acc ms => if Score.lt acc.2 ms.2 then (some ms.1, ms.2) else acc)
      ((none : Option Move), Score.negInf)).1).isSome = true := by
  cases l with
  | nil => exact absurd rfl hne
  | cons ms t =>
    rw [List.foldl_cons]
    apply foldl_best_isSome_aux
    have h2 := hsc ms (List.mem_cons_self _ _)
    have hlt : Score.lt Score.negInf ms.2 = true := by
      cases hms2 : ms.2 <;> simp [Score.lt]
      exact h2 hms2
    dsimp only
    rw [hlt]
    rfl

/-- `get_best_move` at depth 2 returns a move whenever the player has
at least one legal move and the stored keys are below the allocation
counter. -/
theorem get_best_move_isSome (ai_player : Player) (game_board : Board)
    (table : TranspositionTable) (alloc : Nat)
    (hWF : ∀ kv ∈ table, kv.1 < (alloc : Int))
    (hmoves : ChessAI.order_moves game_board ai_player ≠ []) :
    ((ChessAI.get_best_move ai_player game_board 2 table alloc).1).isSome = true := by
  unfold ChessAI.get_best_move ChessAI.iter_possible_moves_in_depth
  obtain ⟨h1, h2⟩ := iterLoop_one_sound ai_player game_board ai_player game_board
    (ChessAI.order_moves game_board ai_player) Score.negInf table alloc hWF
  exact foldl_best_isSome _ (h1 hmoves) h2

/-- With fresh table keys, the post-match tail of `move_piece` always
returns normally: when the AI branch is reached, `check_winner` was
empty, so the AI player still has a legal move and `get_best_move`
cannot return `None`. -/
theorem after_match_ok (g : ChessGame) (move : Move) (hWF : g.table_fresh = true) :
    ∃ r, (ChessGame.after_match g move).1 = .ok r := by
  unfold ChessGame.after_match
  cases hw : (move.execute g.board).check_winner with
  | some r => exact ⟨some r, by simp [hw]⟩
  | none =>
    cases hai : g.ai with
    | none => exact ⟨none, by simp [hw, hai]⟩
    | some ai =>
      have hWF2 : ∀ kv ∈ ai.transposition_table, kv.1 < (g.alloc : Int) := by
        unfold ChessGame.table_fresh at hWF
        rw [hai] at hWF
        simpa using hWF
      have hterm := check_winner_none hw ai.player
      have hmoves : ChessAI.order_moves (move.execute g.board) ai.player ≠ [] :=
        order_moves_ne_nil (exists_possible_move_of_not_terminal hterm.1 hterm.2)
      have hbm := get_best_move_isSome ai.player (move.execute g.board)
        ai.transposition_table g.alloc hWF2 hmoves
      obtain ⟨bm, hbm2⟩ := Option.isSome_iff_exists.mp hbm
      cases hw3 : (bm.execute (move.execute g.board)).check_winner with
      | some r3 => exact ⟨some r3, by simp [hw, hai, hbm2, hw3]⟩
      | none => exact ⟨none, by simp [hw, hai, hbm2, hw3]⟩

/-- The only error the post-match tail can produce is the modeled AI
crash. -/
theorem after_match_error {g : ChessGame} {move : Move} {err : MoveError}
    (h : (ChessGame.after_match g move).1 = .error err) : err = .ai_no_move := by
  unfold ChessGame.after_match at h
  cases hw : (move.execute g.board).check_winner with
  | some r => simp [hw] at h
  | none =>
    simp only [hw] at h
    cases hai : g.ai with
    | none => simp [hai] at h
    | some ai =>
      simp only [hai] at h
      cases hbm : (ChessAI.get_best_move ai.player (move.execute g.board) 2
          ai.transposition_table g.alloc).1 with
      | none =>
        simp only [hbm] at h
        simp at h
        exact h.symm
      | some bm =>
        simp only [hbm] at h
        cases hw3 : (bm.execute (move.execute g.board)).check_winner with
        | some r3 => simp [hw3] at h
        | none => simp [hw3] at h

/-- `move_piece` on an empty origin square. -/
theorem move_piece_no_piece {g : ChessGame} {s e : Pos} (hget : g.board.get s = none) :
    g.move_piece s e = (.error .no_piece_at_square, g) := by
  simp [ChessGame.move_piece, hget]

/-- `move_piece` on an opponent piece. -/
theorem move_piece_wrong_turn {g : ChessGame} {s e : Pos} {piece : Piece}
    (hget : g.board.get s = some piece) (hpl : piece.player ≠ g.current_player) :
    g.move_piece s e = (.error .wrong_turn, g) := by
  simp [ChessGame.move_piece, hget, hpl]

/-- `move_piece` when no legal move of the origin piece reaches the
requested destination. -/
theorem move_piece_illegal {g : ChessGame} {s e : Pos} {piece : Piece}
    (hget : g.board.get s = some piece) (hpl : piece.player = g.current_player)
    (hfind : (piece.possible_moves s.1 s.2 g.board).find?
      (fun move => move.destination == e) = none) :
    g.move_piece s e = (.error .illegal_move, g) := by
  simp [ChessGame.move_piece, hget, hpl, hfind]

/-- `move_piece` when the first matching legal move exists: it runs the
post-match tail on exactly that move. -/
theorem move_piece_match {g : ChessGame} {s e : Pos} {piece : Piece} {move : Move}
    (hget : g.board.get s = some piece) (hpl : piece.player = g.current_player)
    (hfind : (piece.possible_moves s.1 s.2 g.board).find?
      (fun move => move.destination == e) = some move) :
    g.move_piece s e = ChessGame.after_match g move := by
  simp [ChessGame.move_piece, hget, hpl, hfind]

/-! ## C6 -/

/-- C6.  The `move_piece` error contract, in the source's checking
order: `no_piece_at_square` exactly on an empty origin; given a piece,
`wrong_turn` exactly when it belongs to the non-current player; given
the current player's piece, `illegal_move` exactly when no legal move
of that piece reaches `end_pos`; and otherwise the first matching legal
move is executed and the call returns normally. -/
theorem C6_move_piece_error_contract (g : ChessGame) (s e : Pos)
    (hWF : g.table_fresh = true) (_hs : Board.is_inside s = true) :
    ((g.move_piece s e).1 = .error .no_piece_at_square ↔ g.board.get s = none)
    ∧ (∀ piece, g.board.get s = some piece →
        (((g.move_piece s e).1 = .error .wrong_turn) ↔ piece.player ≠ g.current_player))
    ∧ (∀ piece, g.board.get s = some piece → piece.player = g.current_player →
        (((g.move_piece s e).1 = .error .illegal_move) ↔
          (piece.possible_moves s.1 s.2 g.board).find?
            (fun move => move.destination == e) = none))
    ∧ (∀ piece move, g.board.get s = some piece → piece.player = g.current_player →
        (piece.possible_moves s.1 s.2 g.board).find?
          (fun move => move.destination == e) = some move →
        g.move_piece s e = ChessGame.after_match g move
        ∧ ∃ r, (g.move_piece s e).1 = .ok r) := by
  refine ⟨⟨?_, ?_⟩, fun piece hget => ⟨?_, ?_⟩, fun piece hget hpl => ⟨?_, ?_⟩, ?_⟩
  · intro h
    by_contra hne
    obtain ⟨piece, hget⟩ := Option.ne_none_iff_exists'.mp hne
    by_cases hpl : piece.player = g.current_player
    · cases hfind : (piece.possible_moves s.1 s.2 g.board).find?
          (fun move => move.destination == e) with
      | none => rw [move_piece_illegal hget hpl hfind] at h; simp at h
      | some mv =>
        rw [move_piece_match hget hpl hfind] at h
        exact absurd (after_match_error h) (by decide)
    · rw [move_piece_wrong_turn hget hpl] at h; simp at h
  · intro h
    rw [move_piece_no_piece h]
  · intro h
    by_contra hpl
    have hpl2 : piece.player = g.current_player := hpl
    cases hfind : (piece.possible_moves s.1 s.2 g.board).find?
        (fun move => move.destination == e) with
    | none => rw [move_piece_illegal hget hpl2 hfind] at h; simp at h
    | some mv =>
      rw [move_piece_match hget hpl2 hfind] at h
      exact absurd (after_match_error h) (by decide)
  · intro hpl
    rw [move_piece_wrong_turn hget hpl]
  · intro h
    cases hfind : (piece.possible_moves s.1 s.2 g.board).find?
        (fun move => move.destination == e) with
    | none => exact rfl
    | some mv =>
      rw [move_piece_match hget hpl hfind] at h
      exact absurd (after_match_error h) (by decide)
  · intro hfind
    rw [move_piece_illegal hget hpl hfind]
  · intro piece move hget hpl hfind
    have hmp := move_piece_match hget hpl hfind
    refine ⟨hmp, ?_⟩
    obtain ⟨r, hr⟩ := after_match_ok g move hWF
    exact ⟨r, by rw [hmp]; exact hr⟩

/-- Witness for C6: the fresh standard game, origin (0, 6) (a white
pawn), destination (0, 5). -/
theorem C6_move_piece_error_contract_witness :
    ((ChessGame.new Board.initial false).move_piece (0, 6) (0, 5)).1
        = .error .no_piece_at_square
      ↔ (ChessGame.new Board.initial false).board.get (0, 6) = none :=
  (C6_move_piece_error_contract (ChessGame.new Board.initial false) (0, 6) (0, 5)
    (by decide) (by decide)).1

/-! ## C7 -/

/-- C7.  When executing the matched move makes `check_winner`
non-empty, `move_piece` returns that result immediately: the final
state carries only the executed move's board, `current_player` is not
advanced, and no AI reply runs. -/
theorem C7_terminal_keeps_turn (g : ChessGame) (s e : Pos) (piece : Piece) (move : Move)
    (r : Result)
    (hget : g.board.get s = some piece)
    (hpl : piece.player = g.current_player)
    (hfind : (piece.possible_moves s.1 s.2 g.board).find?
      (fun move => move.destination == e) = some move)
    (hwin : (move.execute g.board).check_winner = some r) :
    g.move_piece s e = (.ok (some r), { g with board := move.execute g.board }) := by
  rw [move_piece_match hget hpl hfind]
  unfold ChessGame.after_match
  simp [hwin]

/-- Witness for C7: on `preMateBoard` the white rook move to (6, 0)
mates black; `move_piece` returns the checkmate result with white
still to move. -/
theorem C7_terminal_keeps_turn_witness :
    (ChessGame.new preMateBoard false).move_piece (6, 3) (6, 0) =
      (.ok (some ⟨some .white, .checkmate⟩),
        { ChessGame.new preMateBoard false with board := c7Move.execute preMateBoard }) :=
  C7_terminal_keeps_turn (ChessGame.new preMateBoard false) (6, 3) (6, 0)
    ⟨.rook, .white, false⟩ c7Move ⟨some .white, .checkmate⟩
    (by decide) rfl (by decide) (by decide)

/-! ## C10 -/

/-- C10.  When `move_piece` fails with one of its three validation
errors, the game state is untouched: the board and `current_player`
are exactly what they were before the call. -/
theorem C10_move_piece_atomic_on_error (g : ChessGame) (s e : Pos) (err : MoveError)
    (herr : (g.move_piece s e).1 = .error err)
    (hkind : err = .no_piece_at_square ∨ err = .wrong_turn ∨ err = .illegal_move) :
    (g.move_piece s e).2.board = g.board
    ∧ (g.move_piece s e).2.current_player = g.current_player := by
  cases hget : g.board.get s with
  | none => rw [move_piece_no_piece hget]; exact ⟨rfl, rfl⟩
  | some piece =>
    by_cases hpl : piece.player = g.current_player
    · cases hfind : (piece.possible_moves s.1 s.2 g.board).find?
          (fun move => move.destination == e) with
      | none => rw [move_piece_illegal hget hpl hfind]; exact ⟨rfl, rfl⟩
      | some mv =>
        rw [move_piece_match hget hpl hfind] at herr
        rcases hkind with rfl | rfl | rfl <;>
          exact absurd (after_match_error herr) (by decide)
    · rw [move_piece_wrong_turn hget hpl]; exact ⟨rfl, rfl⟩

/-- Witness for C10: a fresh standard game, asked to move from the
empty square (3, 3). -/
theorem C10_move_piece_atomic_on_error_witness :
    ((ChessGame.new Board.initial false).move_piece (3, 3) (0, 0)).2.board
        = (ChessGame.new Board.initial false).board
    ∧ ((ChessGame.new Board.initial false).move_piece (3, 3) (0, 0)).2.current_player
        = (ChessGame.new Board.initial false).current_player :=
  C10_move_piece_atomic_on_error (ChessGame.new Board.initial false) (3, 3) (0, 0)
    .no_piece_at_square rfl (Or.inl rfl)
